import Mathlib

/-!
# The YQL driver of stock-explorer (`finance/provider/yql.go`)

A shallow embedding of the driver: the connection factory `YQLDriver.Open`, the
connection `YQLConn`, the prepared statement `YQLStmt` (placeholder binding, the
choice of transport, the unwrapping of the JSON envelope) and the cursor
`YQLRows`.

Conventions of the embedding.

* A Go `string` is the list of its bytes (`GoString`); `len` is `List.length`.
* A Go call returning `(value, error)` returns an `Outcome`: a value, a non-nil
  error with its message, or a run-time panic (a failed type assertion, an index
  out of range).
* A method with a pointer receiver that mutates the receiver returns the
  receiver after the call next to its result.
* A decoded JSON document (`interface{}` filled in by `encoding/json`) is a
  `JSON` value; the nil interface is `JSON.null`. The entries of a JSON object
  are listed in the order in which `range` visits them; that order is not fixed
  by Go, and the theorems hold for every list, hence for every order.
* The HTTP exchange and the rendering `fmt.Sprintf("%q", v)` belong to
  libraries outside the file; they are parameters of the embedding.
-/

namespace Provider

/-! ## Go values -/

/-- A Go string: an immutable sequence of bytes. -/
abbrev GoString := List UInt8

/-- The bytes of a string literal of the source (its UTF-8 encoding). -/
def bytes (s : String) : GoString := s.toUTF8.data.toList

/-- The placeholder byte of a query text, the question mark (0x3F). -/
def placeholder : UInt8 := 63

/-- The separator byte of a connection descriptor, the vertical bar (0x7C). -/
def separator : UInt8 := 124

/-- What a Go call that returns `(value, error)` does: it returns a value with a
nil error, returns a non-nil error, or panics at run time. -/
inductive Outcome (α : Type) where
  | ok (a : α)
  | error (msg : String)
  | panic

/-- A JSON document as `encoding/json` decodes it into an `interface{}`: nil,
`bool`, `float64`, `string`, `[]interface{}` or `map[string]interface{}`. The
entries of an object stand in the order in which `range` visits them. -/
inductive JSON where
  | null
  | bool (b : Bool)
  | number (x : Float)
  | string (s : GoString)
  | array (elems : List JSON)
  | object (entries : List (GoString × JSON))

/-! ## The `strings` functions the driver calls, at a one-byte pattern -/

/-- The call `strings.Count(s, sub)` for a pattern `sub` of one byte `c`: the
number of occurrences of `c` in `s`. -/
def stringsCount (s : GoString) (c : UInt8) : Nat := s.count c

/-- The call `strings.Replace(s, old, new, 1)` for a pattern `old` of one byte:
`s` with its first occurrence of `old`, if any, replaced by `new`. -/
def stringsReplace1 (s : GoString) (old : UInt8) (new : GoString) : GoString :=
  match s with
  | [] => []
  | b :: rest => if b = old then new ++ rest else b :: stringsReplace1 rest old new

/-- The call `strings.Split(s, sep)` for a separator of one byte: the pieces of
`s` between the occurrences of `sep`, one more than there are occurrences. -/
def stringsSplit (s : GoString) (sep : UInt8) : List GoString :=
  match s with
  | [] => [[]]
  | b :: rest =>
    if b = sep then [] :: stringsSplit rest sep
    else
      match stringsSplit rest sep with
      | piece :: pieces => (b :: piece) :: pieces
      | [] => [[b]]

/-- Indexing `m[k]` of a `map[string]interface{}`: the value stored under `k`,
or nil when the key is absent. -/
def mapIndex (m : List (GoString × JSON)) (k : GoString) : JSON :=
  match m.lookup k with
  | some v => v
  | none => JSON.null

/-! ## Connection factory and connection -/

/-- The transport handle of a connection; the driver only ever stores
`http.DefaultClient`. -/
inductive HTTPClient where
  | DefaultClient

/-- The struct `YQLConn`; `c` is a pointer, `none` is nil. -/
structure YQLConn where
  c : Option HTTPClient
  key : GoString
  secret : GoString
  env : GoString

/-- The method `YQLDriver.Open` (lines 29-44). -/
def YQLDriver.Open (dsn : GoString) : Outcome YQLConn :=
  let bare : Outcome YQLConn :=
    if dsn ≠ [] then
      Outcome.ok { c := some HTTPClient.DefaultClient, key := [], secret := [], env := dsn }
    else
      Outcome.ok { c := some HTTPClient.DefaultClient, key := [], secret := [], env := [] }
  if dsn.length > 1 then
    match stringsSplit dsn separator with
    | [p0, p1] =>
      Outcome.ok { c := some HTTPClient.DefaultClient, key := p0, secret := p1, env := [] }
    | [p0, p1, p2] =>
      Outcome.ok { c := some HTTPClient.DefaultClient, key := p0, secret := p1, env := p2 }
    | _ => bare
  else bare

/-- The method `YQLConn.Close` (lines 53-56): the connection after the call and
the nil error. -/
def YQLConn.Close (c : YQLConn) : YQLConn × Option String :=
  ({ c with c := none }, none)

/-- The transaction handle `driver.Tx`; the driver never builds one. -/
inductive Tx where
  | mk

/-- The method `YQLConn.Begin` (lines 58-60): the connection after the call and
what is returned. -/
def YQLConn.Begin (c : YQLConn) : YQLConn × Outcome Tx :=
  (c, Outcome.error "Begin not supported")

/-- The struct `YQLStmt`: the owning connection and the query text. -/
structure YQLStmt where
  c : YQLConn
  q : GoString

/-- The method `YQLConn.Prepare` (lines 62-64). -/
def YQLConn.Prepare (c : YQLConn) (query : GoString) : Outcome YQLStmt :=
  Outcome.ok { c := c, q := query }

/-! ## Prepared statement -/

/-- The method `YQLStmt.Close` (lines 71-73). -/
def YQLStmt.Close (s : YQLStmt) : YQLStmt × Option String := (s, none)

/-- The method `YQLStmt.NumInput` (lines 75-78). -/
def YQLStmt.NumInput (s : YQLStmt) : Nat := stringsCount s.q placeholder

/-- The loop of `YQLStmt.bind` (lines 82-85): one `strings.Replace(b, "?", ..., 1)`
per argument, in order; `fmtQ v` is `fmt.Sprintf("%q", v)`. -/
def bindLoop {α : Type} (fmtQ : α → GoString) (b : GoString) (args : List α) : GoString :=
  match args with
  | [] => b
  | v :: rest => bindLoop fmtQ (stringsReplace1 b placeholder (fmtQ v)) rest

/-- The method `YQLStmt.bind` (lines 80-88): the statement after the call and
the returned error, which is always nil. -/
def YQLStmt.bind {α : Type} (fmtQ : α → GoString) (s : YQLStmt) (args : List α) :
    YQLStmt × Option String :=
  ({ s with q := bindLoop fmtQ s.q args }, none)

/-- The struct `YQLRows`: the statement, the position and the Row Set. -/
structure YQLRows where
  s : YQLStmt
  n : Int
  d : List JSON

/-- The request `YQLStmt.Query` hands to the transport: in the secure branch the
consumer key and secret and the pairs added to `oauth.Params`, in the public
branch the pairs added to `url.Values`; both in the order of the `Add` calls. -/
inductive Request where
  | secure (consumerKey consumerSecret : GoString) (params : List (GoString × GoString))
  | public (values : List (GoString × GoString))

/-- What comes back from the transport and the JSON decoder: an error of the
HTTP or authorization exchange (`err != nil`), a body that is not JSON, or the
decoded document. -/
inductive Reply where
  | failed (err : String)
  | undecodable (err : String)
  | decoded (data : JSON)

/-- The branch on the transport mode in `YQLStmt.Query` (lines 97-136), on the
statement as `bind` left it. -/
def YQLStmt.request (s : YQLStmt) : Request :=
  if s.c.key.length > 1 then
    Request.secure s.c.key s.c.secret [(bytes "format", bytes "json"), (bytes "q", s.q)]
  else
    Request.public
      ([(bytes "q", s.q), (bytes "format", bytes "json")] ++
        (if s.c.env ≠ [] then [(bytes "env", s.c.env)] else []))

/-- The loop over the `results` mapping in `YQLStmt.Query` (lines 163-173):
`vs` are the values still to be visited, `last` the variable of that name. -/
def scanResults (s : YQLStmt) (vs : List JSON) (last : JSON) : Outcome YQLRows :=
  match vs with
  | [] =>
    match last with
    | JSON.null => Outcome.error "Unsupported result"
    | v => Outcome.ok { s := s, n := 0, d := [v] }
  | v :: rest =>
    match v with
    | JSON.array vv => Outcome.ok { s := s, n := 0, d := vv }
    | _ => scanResults s rest v

/-- The unwrapping of the envelope in `YQLStmt.Query` (lines 147-173). The type
assertions of lines 151 and 155 have no `ok` result and panic on a value that is
not a mapping; the one of line 159 has. -/
def unwrapEnvelope (s : YQLStmt) (data : JSON) : Outcome YQLRows :=
  match data with
  | JSON.null => Outcome.error "Unsupported result"
  | JSON.object top =>
    match mapIndex top (bytes "query") with
    | JSON.null => Outcome.error "Unsupported result"
    | JSON.object query =>
      match mapIndex query (bytes "results") with
      | JSON.null => Outcome.error "Unsupported result"
      | JSON.object results => scanResults s (results.map Prod.snd) JSON.null
      | _ => Outcome.error "Unsupported result"
    | _ => Outcome.panic
  | _ => Outcome.panic

/-- The method `YQLStmt.Query` (lines 90-174): the statement after the call and
what is returned. `reply` is the outside world: the answer of the transport and
of the JSON decoder to the request sent. -/
def YQLStmt.Query {α : Type} (fmtQ : α → GoString) (reply : Request → Reply)
    (s : YQLStmt) (args : List α) : YQLStmt × Outcome YQLRows :=
  match YQLStmt.bind fmtQ s args with
  | (s1, some err) => (s1, Outcome.error err)
  | (s1, none) =>
    match reply (YQLStmt.request s1) with
    | Reply.failed err => (s1, Outcome.error err)
    | Reply.undecodable err => (s1, Outcome.error ("Invalid Json: " ++ err))
    | Reply.decoded data => (s1, unwrapEnvelope s1 data)

/-- The struct `YQLResult`; the driver never builds one. -/
structure YQLResult where
  s : YQLStmt

/-- The method `YQLStmt.Exec` (lines 180-182): the statement after the call and
what is returned. -/
def YQLStmt.Exec {α : Type} (s : YQLStmt) (_args : List α) : YQLStmt × Outcome YQLResult :=
  (s, Outcome.error "Exec does not supported")

/-! ## Cursor -/

/-- The method `YQLRows.Close` (lines 190-192). -/
def YQLRows.Close (rc : YQLRows) : YQLRows × Option String := (rc, none)

/-- The method `YQLRows.Columns` (lines 194-196). -/
def YQLRows.Columns (_rc : YQLRows) : List GoString := [bytes "results"]

/-- The assignment `dest[0] = v`: the slice after it, or `none` when the slice
is empty (index out of range). -/
def setFirst (dest : List JSON) (v : JSON) : Option (List JSON) :=
  match dest with
  | [] => none
  | _ :: slots => some (v :: slots)

/-- The method `YQLRows.Next` (lines 198-209): the cursor and the output slice
after the call, and the returned error (`Outcome.ok ()` is nil, `io.EOF` is the
error with message `EOF`). The element is stored in `dest[0]` as a string when
the assertion of line 202 succeeds, as it is otherwise. Indexing `rc.d` outside
its bounds or an empty `dest` panics, before anything is written. -/
def YQLRows.Next (rc : YQLRows) (dest : List JSON) : YQLRows × List JSON × Outcome Unit :=
  if rc.n = (rc.d.length : Int) then (rc, dest, Outcome.error "EOF")
  else if rc.n < 0 then (rc, dest, Outcome.panic)
  else
    match rc.d.get? rc.n.toNat with
    | none => (rc, dest, Outcome.panic)
    | some v =>
      let stored :=
        match v with
        | JSON.string str => setFirst dest (JSON.string str)
        | other => setFirst dest other
      match stored with
      | none => (rc, dest, Outcome.panic)
      | some written => ({ rc with n := rc.n + 1 }, written, Outcome.ok ())

/-! ## Definitions used to state the properties -/

/-- The rendering `fmt.Sprintf("%q", v)` of a string `v` made of printable ASCII
bytes (0x20 to 0x7E): the text between double quotes (0x22), with a backslash
(0x5C) before every double quote and every backslash. Other bytes are outside
the range this definition is used on. -/
def quoteASCII (v : GoString) : GoString :=
  34 :: (v.flatMap fun b => if b = 34 ∨ b = 92 then [92, b] else [b]) ++ [34]

/-- Specification side of binding: the text `q` in which the placeholders are
replaced, from left to right, by the renderings `rs`, the i-th placeholder by
the i-th rendering; placeholders beyond the last rendering stay, renderings
beyond the last placeholder are dropped. -/
def fillPlaceholders (q : GoString) (rs : List GoString) : GoString :=
  match q, rs with
  | [], _ => []
  | b :: rest, [] => b :: rest
  | b :: rest, r :: more =>
    if b = placeholder then r ++ fillPlaceholders rest more
    else b :: fillPlaceholders rest (r :: more)

/-- The text of a descriptor before its first separator. -/
def textBefore (s : GoString) : GoString := s.takeWhile (fun b => b != separator)

/-- The text of a descriptor after its first separator. -/
def textAfter (s : GoString) : GoString := (s.dropWhile (fun b => b != separator)).drop 1

/-- Whether a decoded value is array-typed (`[]interface{}`). -/
def JSON.isArray : JSON → Bool
  | JSON.array _ => true
  | _ => false

/-- A connection without credentials and without qualifier, as `Open` builds it
from the empty descriptor. -/
def publicConn : YQLConn :=
  { c := some HTTPClient.DefaultClient, key := [], secret := [], env := [] }

/-- A statement without placeholders on `publicConn`. -/
def quoteStmt : YQLStmt := { c := publicConn, q := bytes "select * from quotes" }

/-- The well-shaped envelope around a `results` mapping: an object whose `query`
field is an object whose `results` field is the given mapping. -/
def envelope (results : List (GoString × JSON)) : JSON :=
  JSON.object [(bytes "query", JSON.object [(bytes "results", JSON.object results)])]

/-- The empty argument list, of string arguments. -/
def noArgs : List GoString := []

/-- The cursor after successive calls of `Next`, one for each output slice of
`dests`, in order. -/
def nextCalls (rc : YQLRows) (dests : List (List JSON)) : YQLRows :=
  match dests with
  | [] => rc
  | dest :: more => nextCalls (YQLRows.Next rc dest).1 more

/-! ## Lemmas on the `strings` functions -/

theorem stringsReplace1_append_left (p t new : GoString) (c : UInt8) (hp : c ∉ p) :
    stringsReplace1 (p ++ t) c new = p ++ stringsReplace1 t c new := by
  induction p with
  | nil => rfl
  | cons b p ih =>
    have hb : b ≠ c := fun h => hp (by simp [h])
    have hp2 : c ∉ p := fun h => hp (by simp [h])
    simp [stringsReplace1, hb, ih hp2]

theorem stringsSplit_length (s : GoString) (c : UInt8) :
    (stringsSplit s c).length = stringsCount s c + 1 := by
  induction s with
  | nil => rfl
  | cons b rest ih =>
    simp only [stringsCount] at ih ⊢
    by_cases hb : b = c
    · simp [stringsSplit, hb, ih]
    · have hb2 : ¬ (c = b) := fun h => hb h.symm
      cases hsp : stringsSplit rest c with
      | nil => simp [hsp] at ih
      | cons piece pieces =>
        rw [hsp] at ih
        simp [stringsSplit, hb, hsp, List.count_cons, hb2] at ih ⊢
        omega

theorem stringsSplit_of_not_mem (s : GoString) (c : UInt8) (h : c ∉ s) :
    stringsSplit s c = [s] := by
  induction s with
  | nil => rfl
  | cons b rest ih =>
    have hb : b ≠ c := fun e => h (by simp [e])
    have hrest : c ∉ rest := fun e => h (by simp [e])
    simp [stringsSplit, hb, ih hrest]

theorem mem_of_stringsCount_pos (s : GoString) (c : UInt8) (h : 0 < stringsCount s c) : c ∈ s :=
  List.count_pos_iff.mp h

theorem not_mem_of_stringsCount_zero (s : GoString) (c : UInt8) (h : stringsCount s c = 0) :
    c ∉ s :=
  List.count_eq_zero.mp h

/-! ## Binding -/

theorem bindLoop_append_left {α : Type} (fmtQ : α → GoString) (p : GoString)
    (hp : placeholder ∉ p) (args : List α) (t : GoString) :
    bindLoop fmtQ (p ++ t) args = p ++ bindLoop fmtQ t args := by
  induction args generalizing t with
  | nil => rfl
  | cons v rest ih =>
    simp only [bindLoop]
    rw [stringsReplace1_append_left p t _ _ hp, ih]

theorem fillPlaceholders_nil (q : GoString) : fillPlaceholders q [] = q := by
  cases q <;> rfl

theorem bindLoop_nil_text {α : Type} (fmtQ : α → GoString) (args : List α) :
    bindLoop fmtQ [] args = [] := by
  induction args with
  | nil => rfl
  | cons v rest ih => simpa [bindLoop, stringsReplace1] using ih

/-- The loop of `bind` computes the left-to-right substitution whenever no
rendering contains a placeholder, whatever the numbers of placeholders and of
arguments. -/
theorem bindLoop_eq_fillPlaceholders {α : Type} (fmtQ : α → GoString) (q : GoString)
    (args : List α) (hargs : ∀ a ∈ args, placeholder ∉ fmtQ a) :
    bindLoop fmtQ q args = fillPlaceholders q (args.map fmtQ) := by
  induction q generalizing args with
  | nil => simp [bindLoop_nil_text, fillPlaceholders]
  | cons b rest ih =>
    cases args with
    | nil => simp [bindLoop, fillPlaceholders]
    | cons v more =>
      have hv : placeholder ∉ fmtQ v := hargs v (by simp)
      have hmore : ∀ a ∈ more, placeholder ∉ fmtQ a := fun a ha => hargs a (by simp [ha])
      by_cases hb : b = placeholder
      · simp only [bindLoop, stringsReplace1, hb, if_true, List.map_cons, fillPlaceholders]
        rw [bindLoop_append_left fmtQ _ hv, ih more hmore]
      · have hsingle : placeholder ∉ [b] := by simpa using fun h => hb h.symm
        have := bindLoop_append_left fmtQ [b] hsingle (v :: more) rest
        simp only [List.singleton_append] at this
        rw [this, ih (v :: more) hargs]
        simp [fillPlaceholders, hb]

/-- The substituted text keeps the placeholders that got no rendering, and only
those, when no rendering contains a placeholder. -/
theorem stringsCount_fillPlaceholders (q : GoString) (rs : List GoString)
    (hrs : ∀ r ∈ rs, placeholder ∉ r) :
    stringsCount (fillPlaceholders q rs) placeholder
      = stringsCount q placeholder - rs.length := by
  induction q generalizing rs with
  | nil => simp [fillPlaceholders, stringsCount]
  | cons b rest ih =>
    cases rs with
    | nil => simp [fillPlaceholders]
    | cons r more =>
      have hr : placeholder ∉ r := hrs r (by simp)
      have hmore : ∀ x ∈ more, placeholder ∉ x := fun x hx => hrs x (by simp [hx])
      have ih1 := ih more hmore
      have ih2 := ih (r :: more) hrs
      simp only [stringsCount] at ih1 ih2 ⊢
      by_cases hb : b = placeholder
      · subst hb
        simp [fillPlaceholders, List.count_append, List.count_eq_zero_of_not_mem hr, ih1]
      · have hb2 : ¬ (placeholder = b) := fun h => hb h.symm
        simp [fillPlaceholders, hb, List.count_cons, ih2, hb2]

/-- Claim C1 as stated fails: on the query text `? ?` with the two string
arguments `?` and `x` (two placeholders, two arguments) the first rendering,
`"?"`, brings in a question mark, which the second replacement then takes. The
bound text is `""x"" ?`: it still holds a placeholder, and it is not the text
with each original placeholder replaced by the rendering of its argument. -/
theorem C1_counterexample :
    stringsCount (bytes "? ?") placeholder = [bytes "?", bytes "x"].length
    ∧ (YQLStmt.bind quoteASCII { c := publicConn, q := bytes "? ?" }
          [bytes "?", bytes "x"]).1.q = [34, 34, 120, 34, 34, 32, 63]
    ∧ stringsCount (YQLStmt.bind quoteASCII { c := publicConn, q := bytes "? ?" }
          [bytes "?", bytes "x"]).1.q placeholder = 1
    ∧ (YQLStmt.bind quoteASCII { c := publicConn, q := bytes "? ?" }
          [bytes "?", bytes "x"]).1.q
        ≠ fillPlaceholders (bytes "? ?") ([bytes "?", bytes "x"].map quoteASCII) := by
  decide

/-- Claim C1, amended: for every query text with N placeholders and every list
of exactly N arguments none of whose quoted renderings contains the placeholder
character, `bind` returns no error and leaves a query text without any
placeholder, equal to the original text with its i-th placeholder, counting
from the left, replaced by the rendering of the i-th argument; the connection
of the statement is untouched. -/
theorem C1_bind_fills_every_placeholder {α : Type} (fmtQ : α → GoString) (s : YQLStmt)
    (args : List α)
    (hcount : stringsCount s.q placeholder = args.length)
    (hclean : ∀ a ∈ args, placeholder ∉ fmtQ a) :
    stringsCount (YQLStmt.bind fmtQ s args).1.q placeholder = 0
    ∧ (YQLStmt.bind fmtQ s args).1.q = fillPlaceholders s.q (args.map fmtQ)
    ∧ (YQLStmt.bind fmtQ s args).2 = none
    ∧ (YQLStmt.bind fmtQ s args).1.c = s.c := by
  have hfill : bindLoop fmtQ s.q args = fillPlaceholders s.q (args.map fmtQ) :=
    bindLoop_eq_fillPlaceholders fmtQ s.q args hclean
  have hrs : ∀ r ∈ args.map fmtQ, placeholder ∉ r := by
    intro r hr
    rcases List.mem_map.mp hr with ⟨a, ha, rfl⟩
    exact hclean a ha
  refine ⟨?_, hfill, rfl, rfl⟩
  show stringsCount (bindLoop fmtQ s.q args) placeholder = 0
  rw [hfill, stringsCount_fillPlaceholders _ _ hrs, hcount]
  simp

/-- Claim C1, amended, on the text `a=? b=?` with the string arguments `u` and
`x`: the bound text is `a="u" b="x"`. -/
theorem C1_bind_fills_every_placeholder_witness :
    stringsCount (bytes "a=? b=?") placeholder = [bytes "u", bytes "x"].length
    ∧ stringsCount (YQLStmt.bind quoteASCII { c := publicConn, q := bytes "a=? b=?" }
          [bytes "u", bytes "x"]).1.q placeholder = 0
    ∧ (YQLStmt.bind quoteASCII { c := publicConn, q := bytes "a=? b=?" }
          [bytes "u", bytes "x"]).1.q
        = bytes "a=" ++ quoteASCII (bytes "u") ++ bytes " b=" ++ quoteASCII (bytes "x") :=
  have h := C1_bind_fills_every_placeholder quoteASCII
    { c := publicConn, q := bytes "a=? b=?" } [bytes "u", bytes "x"] (by decide) (by decide)
  ⟨by decide, h.1, h.2.1.trans (by decide)⟩

/-! ## The envelope -/

theorem scanResults_first_array (s : YQLStmt) (before after : List JSON) (vv : List JSON)
    (hbefore : ∀ v ∈ before, v.isArray = false) (last : JSON) :
    scanResults s (before ++ JSON.array vv :: after) last
      = Outcome.ok { s := s, n := 0, d := vv } := by
  induction before generalizing last with
  | nil => simp [scanResults]
  | cons v rest ih =>
    have hv : v.isArray = false := hbefore v (by simp)
    have hrest : ∀ x ∈ rest, x.isArray = false := fun x hx => hbefore x (by simp [hx])
    cases v with
    | array xs => simp [JSON.isArray] at hv
    | null => simpa [scanResults] using ih hrest _
    | bool b => simpa [scanResults] using ih hrest _
    | number x => simpa [scanResults] using ih hrest _
    | string x => simpa [scanResults] using ih hrest _
    | object x => simpa [scanResults] using ih hrest _

theorem scanResults_no_array (s : YQLStmt) (front : List JSON) (v : JSON)
    (hfront : ∀ x ∈ front, x.isArray = false) (hv : v.isArray = false) (hnull : v ≠ JSON.null)
    (last : JSON) :
    scanResults s (front ++ [v]) last = Outcome.ok { s := s, n := 0, d := [v] } := by
  induction front generalizing last with
  | nil =>
    cases v with
    | array xs => simp [JSON.isArray] at hv
    | null => exact absurd rfl hnull
    | bool b => simp [scanResults]
    | number x => simp [scanResults]
    | string x => simp [scanResults]
    | object x => simp [scanResults]
  | cons w rest ih =>
    have hw : w.isArray = false := hfront w (by simp)
    have hrest : ∀ x ∈ rest, x.isArray = false := fun x hx => hfront x (by simp [hx])
    cases w with
    | array xs => simp [JSON.isArray] at hw
    | null => simpa [scanResults] using ih hrest _
    | bool b => simpa [scanResults] using ih hrest _
    | number x => simpa [scanResults] using ih hrest _
    | string x => simpa [scanResults] using ih hrest _
    | object x => simpa [scanResults] using ih hrest _

theorem mapIndex_of_lookup (m : List (GoString × JSON)) (k : GoString) (v : JSON)
    (h : m.lookup k = some v) : mapIndex m k = v := by
  simp [mapIndex, h]

/-- Once the transport has answered with a decoded document, `Query` returns
what the unwrapping of that document gives, on the statement as bound. -/
theorem Query_decoded {α : Type} (fmtQ : α → GoString) (reply : Request → Reply)
    (s : YQLStmt) (args : List α) (data : JSON)
    (hreply : reply (YQLStmt.request (YQLStmt.bind fmtQ s args).1) = Reply.decoded data) :
    YQLStmt.Query fmtQ reply s args
      = ((YQLStmt.bind fmtQ s args).1, unwrapEnvelope (YQLStmt.bind fmtQ s args).1 data) := by
  simp only [YQLStmt.bind] at hreply
  simp [YQLStmt.Query, YQLStmt.bind, hreply]

/-- Claim C2: when the decoded response is a mapping whose `query` field is a
mapping whose `results` field is a mapping with an array-typed entry, `Query`
succeeds with a cursor at position 0 whose Row Set is the value of the first
array-typed entry in scan order (the entries `before` it are not array-typed). -/
theorem C2_first_array_entry {α : Type} (fmtQ : α → GoString) (reply : Request → Reply)
    (s : YQLStmt) (args : List α) (top query results before after : List (GoString × JSON))
    (k : GoString) (vv : List JSON)
    (hreply : reply (YQLStmt.request (YQLStmt.bind fmtQ s args).1)
      = Reply.decoded (JSON.object top))
    (hquery : top.lookup (bytes "query") = some (JSON.object query))
    (hresults : query.lookup (bytes "results") = some (JSON.object results))
    (hscan : results = before ++ (k, JSON.array vv) :: after)
    (hbefore : ∀ e ∈ before, e.2.isArray = false) :
    YQLStmt.Query fmtQ reply s args
      = ((YQLStmt.bind fmtQ s args).1,
          Outcome.ok (YQLRows.mk (YQLStmt.bind fmtQ s args).1 0 vv)) := by
  rw [Query_decoded fmtQ reply s args _ hreply]
  have hb : ∀ v ∈ before.map Prod.snd, v.isArray = false := by
    intro v hv
    rcases List.mem_map.mp hv with ⟨e, he, rfl⟩
    exact hbefore e he
  simp only [unwrapEnvelope, mapIndex_of_lookup _ _ _ hquery, mapIndex_of_lookup _ _ _ hresults,
    hscan, List.map_append, List.map_cons]
  rw [scanResults_first_array _ _ _ _ hb]

/-- Claim C2 on the response whose `results` mapping has the one entry `quote`,
an array of the two objects with `a` equal to 1 and to 2: the Row Set is these
two objects, in order, and the cursor stands at position 0. -/
theorem C2_first_array_entry_witness :
    YQLStmt.Query quoteASCII
        (fun _ => Reply.decoded (envelope [(bytes "quote",
          JSON.array [JSON.object [(bytes "a", JSON.number 1)],
            JSON.object [(bytes "a", JSON.number 2)]])]))
        quoteStmt noArgs
      = (quoteStmt, Outcome.ok (YQLRows.mk quoteStmt 0
          [JSON.object [(bytes "a", JSON.number 1)], JSON.object [(bytes "a", JSON.number 2)]])) :=
  C2_first_array_entry quoteASCII _ quoteStmt noArgs _ _ _ [] [] (bytes "quote") _
    rfl rfl rfl rfl (by simp)

/-- Claim C3 as stated fails: on the well-shaped envelope whose `results`
mapping has the one entry `quote` with value null (one entry, none array-typed)
`Query` returns the error "Unsupported result", not a cursor over the Row Set
holding null. -/
theorem C3_counterexample :
    YQLStmt.Query quoteASCII (fun _ => Reply.decoded (envelope [(bytes "quote", JSON.null)]))
        quoteStmt noArgs
      = (quoteStmt, Outcome.error "Unsupported result") := by
  rfl

/-- Claim C3, amended: when the `results` mapping of a well-shaped envelope has
at least one entry, none array-typed, and the value of the last entry scanned
is not null, `Query` succeeds with a cursor at position 0 over the Row Set of
length 1 that holds that value. -/
theorem C3_last_entry_fallback {α : Type} (fmtQ : α → GoString) (reply : Request → Reply)
    (s : YQLStmt) (args : List α) (top query results front : List (GoString × JSON))
    (k : GoString) (v : JSON)
    (hreply : reply (YQLStmt.request (YQLStmt.bind fmtQ s args).1)
      = Reply.decoded (JSON.object top))
    (hquery : top.lookup (bytes "query") = some (JSON.object query))
    (hresults : query.lookup (bytes "results") = some (JSON.object results))
    (hscan : results = front ++ [(k, v)])
    (hnone : ∀ e ∈ results, e.2.isArray = false)
    (hnull : v ≠ JSON.null) :
    YQLStmt.Query fmtQ reply s args
      = ((YQLStmt.bind fmtQ s args).1,
          Outcome.ok (YQLRows.mk (YQLStmt.bind fmtQ s args).1 0 [v])) := by
  rw [Query_decoded fmtQ reply s args _ hreply]
  subst hscan
  have hf : ∀ x ∈ front.map Prod.snd, x.isArray = false := by
    intro x hx
    rcases List.mem_map.mp hx with ⟨e, he, rfl⟩
    exact hnone e (by simp [he])
  have hv : v.isArray = false := hnone (k, v) (by simp)
  simp only [unwrapEnvelope, mapIndex_of_lookup _ _ _ hquery, mapIndex_of_lookup _ _ _ hresults,
    List.map_append, List.map_cons, List.map_nil]
  rw [scanResults_no_array _ _ _ hf hv hnull]

/-- Claim C3, amended, on the response whose `results` mapping has the one
entry `quote` with the string value `single-value`: the Row Set is that one
string. -/
theorem C3_last_entry_fallback_witness :
    YQLStmt.Query quoteASCII
        (fun _ => Reply.decoded (envelope [(bytes "quote", JSON.string (bytes "single-value"))]))
        quoteStmt noArgs
      = (quoteStmt, Outcome.ok (YQLRows.mk quoteStmt 0 [JSON.string (bytes "single-value")])) :=
  C3_last_entry_fallback quoteASCII _ quoteStmt noArgs _ _ _ [] (bytes "quote") _
    rfl rfl rfl rfl (by simp [JSON.isArray]) (by simp)

/-- The levels of the envelope that `Query` does check return the error: a nil
document, a `query` field absent or null, a `results` field absent, null or not
a mapping (the assertion of line 159 has an `ok` result). -/
theorem unwrapEnvelope_checked_levels (s : YQLStmt) (top query : List (GoString × JSON)) :
    unwrapEnvelope s JSON.null = Outcome.error "Unsupported result"
    ∧ (mapIndex top (bytes "query") = JSON.null →
        unwrapEnvelope s (JSON.object top) = Outcome.error "Unsupported result")
    ∧ (mapIndex top (bytes "query") = JSON.object query →
        (∀ results, mapIndex query (bytes "results") ≠ JSON.object results) →
        unwrapEnvelope s (JSON.object top) = Outcome.error "Unsupported result") := by
  refine ⟨rfl, ?_, ?_⟩
  · intro h
    simp [unwrapEnvelope, h]
  · intro h hr
    simp only [unwrapEnvelope, h]
    cases hm : mapIndex query (bytes "results") with
    | object results => exact absurd hm (hr results)
    | null => rfl
    | bool b => rfl
    | number x => rfl
    | string x => rfl
    | array xs => rfl

/-- Claim C4, the code at two inputs the claim covers: a document whose top
level is the empty array, and a document whose `query` field is the string `x`.
The claim asks for the error "Unsupported result"; the unchecked type
assertions of lines 151 and 155 panic instead. -/
theorem C4_unchecked_assertions_panic :
    YQLStmt.Query quoteASCII (fun _ => Reply.decoded (JSON.array [])) quoteStmt noArgs
      = (quoteStmt, Outcome.panic)
    ∧ YQLStmt.Query quoteASCII
        (fun _ => Reply.decoded (JSON.object [(bytes "query", JSON.string (bytes "x"))]))
        quoteStmt noArgs
      = (quoteStmt, Outcome.panic) :=
  ⟨rfl, rfl⟩

/-- Claim C5: when the decoded response is a mapping in which the key `query`
is missing or mapped to null, `Query` returns the error "Unsupported result":
no panic and no cursor. -/
theorem C5_query_missing_or_null {α : Type} (fmtQ : α → GoString) (reply : Request → Reply)
    (s : YQLStmt) (args : List α) (top : List (GoString × JSON))
    (hreply : reply (YQLStmt.request (YQLStmt.bind fmtQ s args).1)
      = Reply.decoded (JSON.object top))
    (hquery : top.lookup (bytes "query") = none ∨ top.lookup (bytes "query") = some JSON.null) :
    YQLStmt.Query fmtQ reply s args
      = ((YQLStmt.bind fmtQ s args).1, Outcome.error "Unsupported result") := by
  rw [Query_decoded fmtQ reply s args _ hreply]
  rcases hquery with h | h <;> simp [unwrapEnvelope, mapIndex, h]

/-- Claim C5 on the response whose one field `query` is null. -/
theorem C5_query_missing_or_null_witness :
    YQLStmt.Query quoteASCII
        (fun _ => Reply.decoded (JSON.object [(bytes "query", JSON.null)])) quoteStmt noArgs
      = (quoteStmt, Outcome.error "Unsupported result") :=
  C5_query_missing_or_null quoteASCII _ quoteStmt noArgs _ rfl (Or.inr rfl)

/-- Claim C6: when the `results` field of a well-shaped envelope is the empty
mapping, `Query` returns the error "Unsupported result" and no cursor. -/
theorem C6_empty_results {α : Type} (fmtQ : α → GoString) (reply : Request → Reply)
    (s : YQLStmt) (args : List α) (top query : List (GoString × JSON))
    (hreply : reply (YQLStmt.request (YQLStmt.bind fmtQ s args).1)
      = Reply.decoded (JSON.object top))
    (hquery : top.lookup (bytes "query") = some (JSON.object query))
    (hresults : query.lookup (bytes "results") = some (JSON.object [])) :
    YQLStmt.Query fmtQ reply s args
      = ((YQLStmt.bind fmtQ s args).1, Outcome.error "Unsupported result") := by
  rw [Query_decoded fmtQ reply s args _ hreply]
  simp [unwrapEnvelope, mapIndex_of_lookup _ _ _ hquery, mapIndex_of_lookup _ _ _ hresults,
    scanResults]

/-- Claim C6 on the envelope around the empty `results` mapping. -/
theorem C6_empty_results_witness :
    YQLStmt.Query quoteASCII (fun _ => Reply.decoded (envelope [])) quoteStmt noArgs
      = (quoteStmt, Outcome.error "Unsupported result") :=
  C6_empty_results quoteASCII _ quoteStmt noArgs _ _ rfl rfl rfl

/-! ## The connection factory -/

theorem textBefore_cons_of_ne (b : UInt8) (rest : GoString) (hb : b ≠ separator) :
    textBefore (b :: rest) = b :: textBefore rest := by
  have hbne : (b != separator) = true := by simpa using hb
  simp [textBefore, List.takeWhile_cons, hbne]

theorem textAfter_cons_of_ne (b : UInt8) (rest : GoString) (hb : b ≠ separator) :
    textAfter (b :: rest) = textAfter rest := by
  have hbne : (b != separator) = true := by simpa using hb
  simp [textAfter, List.dropWhile_cons, hbne]

theorem stringsSplit_of_mem (s : GoString) (h : separator ∈ s) :
    stringsSplit s separator = textBefore s :: stringsSplit (textAfter s) separator := by
  induction s with
  | nil => simp at h
  | cons b rest ih =>
    by_cases hb : b = separator
    · simp [stringsSplit, hb, textBefore, textAfter, List.takeWhile, List.dropWhile]
    · have hrest : separator ∈ rest := by
        rcases List.mem_cons.mp h with e | e
        · exact absurd e.symm hb
        · exact e
      have ih2 := ih hrest
      rw [textBefore_cons_of_ne b rest hb, textAfter_cons_of_ne b rest hb]
      simp [stringsSplit, hb, ih2]

theorem textBefore_append_textAfter (s : GoString) (h : separator ∈ s) :
    s = textBefore s ++ separator :: textAfter s := by
  induction s with
  | nil => simp at h
  | cons b rest ih =>
    by_cases hb : b = separator
    · simp [hb, textBefore, textAfter, List.takeWhile, List.dropWhile]
    · have hrest : separator ∈ rest := by
        rcases List.mem_cons.mp h with e | e
        · exact absurd e.symm hb
        · exact e
      rw [textBefore_cons_of_ne b rest hb, textAfter_cons_of_ne b rest hb]
      simpa using ih hrest

theorem separator_not_mem_textBefore (s : GoString) : separator ∉ textBefore s := by
  intro h
  have := List.mem_takeWhile_imp h
  simp at this

theorem stringsCount_textAfter (s : GoString) (h : separator ∈ s) :
    stringsCount s separator = stringsCount (textAfter s) separator + 1 := by
  have e := textBefore_append_textAfter s h
  have h0 : List.count separator (textBefore s) = 0 :=
    List.count_eq_zero_of_not_mem (separator_not_mem_textBefore s)
  unfold stringsCount
  conv_lhs => rw [e]
  simp [List.count_append, h0]

/-- Claim C7 as stated fails: the descriptor made of the separator alone holds
exactly one separator, yet `Open` returns a connection without credentials
whose qualifier is the whole descriptor, not the empty qualifier. -/
theorem C7_counterexample :
    stringsCount (bytes "|") separator = 1
    ∧ YQLDriver.Open (bytes "|") = Outcome.ok
        { c := some HTTPClient.DefaultClient, key := [], secret := [], env := bytes "|" }
    ∧ YQLDriver.Open (bytes "|") ≠ Outcome.ok
        { c := some HTTPClient.DefaultClient, key := textBefore (bytes "|"),
          secret := textAfter (bytes "|"), env := [] } := by
  refine ⟨by decide, by rfl, ?_⟩
  intro h
  have h2 : YQLDriver.Open (bytes "|") = Outcome.ok
        { c := some HTTPClient.DefaultClient, key := [], secret := [], env := bytes "|" } := rfl
  rw [h2] at h
  injection h with h
  injection h with _ _ _ h4
  exact absurd h4 (by decide)

/-- Claim C7, amended: for every descriptor of at least two bytes that contains
exactly one separator, `Open` succeeds with a connection whose key is the text
before the separator, whose secret is the text after it and whose qualifier is
empty. -/
theorem C7_open_one_separator (dsn : GoString)
    (hsep : stringsCount dsn separator = 1) (hlen : 1 < dsn.length) :
    YQLDriver.Open dsn = Outcome.ok
        { c := some HTTPClient.DefaultClient, key := textBefore dsn,
          secret := textAfter dsn, env := [] }
      ∧ dsn = textBefore dsn ++ separator :: textAfter dsn := by
  have hmem : separator ∈ dsn := mem_of_stringsCount_pos dsn separator (by omega)
  have hafter : stringsCount (textAfter dsn) separator = 0 := by
    have := stringsCount_textAfter dsn hmem
    omega
  have hsplit : stringsSplit dsn separator = [textBefore dsn, textAfter dsn] := by
    rw [stringsSplit_of_mem dsn hmem,
      stringsSplit_of_not_mem _ _ (not_mem_of_stringsCount_zero _ _ hafter)]
  refine ⟨?_, textBefore_append_textAfter dsn hmem⟩
  simp [YQLDriver.Open, hlen, hsplit]

/-- Claim C7, amended, on the descriptor `k|s`: key `k`, secret `s`, no
qualifier. -/
theorem C7_open_one_separator_witness :
    stringsCount (bytes "k|s") separator = 1 ∧ 1 < (bytes "k|s").length
    ∧ YQLDriver.Open (bytes "k|s") = Outcome.ok
        { c := some HTTPClient.DefaultClient, key := bytes "k", secret := bytes "s", env := [] } :=
  ⟨by decide, by decide, (C7_open_one_separator (bytes "k|s") (by decide) (by decide)).1⟩

/-- Claim C8: for every descriptor that contains exactly two separators, `Open`
succeeds with a connection whose key, secret and qualifier are, in order, the
three pieces of the descriptor the separators delimit. -/
theorem C8_open_two_separators (dsn : GoString) (hsep : stringsCount dsn separator = 2) :
    YQLDriver.Open dsn = Outcome.ok
        { c := some HTTPClient.DefaultClient, key := textBefore dsn,
          secret := textBefore (textAfter dsn), env := textAfter (textAfter dsn) }
      ∧ dsn = textBefore dsn ++ separator ::
          (textBefore (textAfter dsn) ++ separator :: textAfter (textAfter dsn))
      ∧ separator ∉ textBefore dsn ∧ separator ∉ textBefore (textAfter dsn)
      ∧ separator ∉ textAfter (textAfter dsn) := by
  have hmem : separator ∈ dsn := mem_of_stringsCount_pos dsn separator (by omega)
  have h1 : stringsCount (textAfter dsn) separator = 1 := by
    have := stringsCount_textAfter dsn hmem
    omega
  have hmem1 : separator ∈ textAfter dsn := mem_of_stringsCount_pos _ separator (by omega)
  have h2 : stringsCount (textAfter (textAfter dsn)) separator = 0 := by
    have := stringsCount_textAfter _ hmem1
    omega
  have hlast : separator ∉ textAfter (textAfter dsn) := not_mem_of_stringsCount_zero _ _ h2
  have hsplit : stringsSplit dsn separator
      = [textBefore dsn, textBefore (textAfter dsn), textAfter (textAfter dsn)] := by
    rw [stringsSplit_of_mem dsn hmem, stringsSplit_of_mem _ hmem1,
      stringsSplit_of_not_mem _ _ hlast]
  have hlen : 1 < dsn.length := by
    have := List.count_le_length separator dsn
    unfold stringsCount at hsep
    omega
  refine ⟨?_, ?_, separator_not_mem_textBefore _, separator_not_mem_textBefore _, hlast⟩
  · simp [YQLDriver.Open, hlen, hsplit]
  · conv_lhs => rw [textBefore_append_textAfter dsn hmem]
    rw [← textBefore_append_textAfter _ hmem1]

/-- Claim C8 on the descriptor `k|s|env1`: key `k`, secret `s`, qualifier
`env1`. -/
theorem C8_open_two_separators_witness :
    stringsCount (bytes "k|s|env1") separator = 2
    ∧ YQLDriver.Open (bytes "k|s|env1") = Outcome.ok
        { c := some HTTPClient.DefaultClient, key := bytes "k", secret := bytes "s",
          env := bytes "env1" } :=
  ⟨by decide, (C8_open_two_separators (bytes "k|s|env1") (by decide)).1⟩

/-- Claim C9: for every descriptor whose number of separators is neither one nor
two (none, or three and more; the empty descriptor too), `Open` succeeds with a
connection without credentials whose qualifier is the whole descriptor. -/
theorem C9_open_bare (dsn : GoString)
    (h1 : stringsCount dsn separator ≠ 1) (h2 : stringsCount dsn separator ≠ 2) :
    YQLDriver.Open dsn = Outcome.ok
        { c := some HTTPClient.DefaultClient, key := [], secret := [], env := dsn } := by
  have hl := stringsSplit_length dsn separator
  have bare : (if dsn ≠ [] then
      (Outcome.ok { c := some HTTPClient.DefaultClient, key := [], secret := [], env := dsn }
        : Outcome YQLConn)
    else
      Outcome.ok { c := some HTTPClient.DefaultClient, key := [], secret := [], env := [] })
      = Outcome.ok { c := some HTTPClient.DefaultClient, key := [], secret := [], env := dsn } := by
    by_cases hd : dsn = []
    · simp [hd]
    · simp [hd]
  unfold YQLDriver.Open
  simp only [bare]
  split
  · split
    · next p0 p1 heq => rw [heq] at hl; simp at hl; omega
    · next p0 p1 p2 heq => rw [heq] at hl; simp at hl; omega
    · rfl
  · rfl

/-- Claim C9 on the descriptor `env1` (no separator): no credentials, qualifier
`env1`. -/
theorem C9_open_bare_witness :
    stringsCount (bytes "env1") separator ≠ 1 ∧ stringsCount (bytes "env1") separator ≠ 2
    ∧ YQLDriver.Open (bytes "env1") = Outcome.ok
        { c := some HTTPClient.DefaultClient, key := [], secret := [], env := bytes "env1" } :=
  ⟨by decide, by decide, C9_open_bare (bytes "env1") (by decide) (by decide)⟩

/-- The empty descriptor and a descriptor with three separators also give a
connection without credentials whose qualifier is the descriptor. -/
theorem Open_empty_and_three_separators :
    YQLDriver.Open [] = Outcome.ok publicConn
    ∧ YQLDriver.Open (bytes "a|b|c|d") = Outcome.ok
        { c := some HTTPClient.DefaultClient, key := [], secret := [], env := bytes "a|b|c|d" } :=
  ⟨rfl, rfl⟩

/-! ## The transport mode -/

/-- The branch of `Query` is the secure one exactly when the key is longer than
one byte. -/
theorem request_secure_of_long_key (s : YQLStmt) (h : 1 < s.c.key.length) :
    YQLStmt.request s
      = Request.secure s.c.key s.c.secret [(bytes "format", bytes "json"), (bytes "q", s.q)] := by
  simp [YQLStmt.request, h]

/-- With a key of at most one byte the branch of `Query` is the public one. -/
theorem request_public_of_short_key (s : YQLStmt) (h : s.c.key.length ≤ 1) :
    YQLStmt.request s
      = Request.public ([(bytes "q", s.q), (bytes "format", bytes "json")] ++
          (if s.c.env ≠ [] then [(bytes "env", s.c.env)] else [])) := by
  have h2 : ¬ (1 < s.c.key.length) := by omega
  simp only [YQLStmt.request, gt_iff_lt, h2, if_false]

/-- Claim C10, the code at the descriptor `k|s`: `Open` stores the key `k` and
the secret `s`, so the connection holds credentials, and `Query` on a statement
of that connection builds the public request, without the credentials; the
claim asks for the secure branch. -/
theorem C10_one_byte_key_goes_public :
    YQLDriver.Open (bytes "k|s") = Outcome.ok
        { c := some HTTPClient.DefaultClient, key := bytes "k", secret := bytes "s", env := [] }
    ∧ YQLStmt.request (YQLStmt.bind quoteASCII
          { c := { c := some HTTPClient.DefaultClient, key := bytes "k", secret := bytes "s",
                   env := [] },
            q := bytes "select * from quotes" } noArgs).1
        = Request.public [(bytes "q", bytes "select * from quotes"),
            (bytes "format", bytes "json")] :=
  ⟨rfl, rfl⟩

/-! ## The cursor -/

theorem storeElement_eq (dest : List JSON) (v : JSON) :
    (match v with
      | JSON.string str => setFirst dest (JSON.string str)
      | other => setFirst dest other) = setFirst dest v := by
  cases v <;> rfl

theorem Next_in_range (s : YQLStmt) (d : List JSON) (i : Nat) (hi : i < d.length)
    (x : JSON) (slots : List JSON) :
    YQLRows.Next (YQLRows.mk s (i : Int) d) (x :: slots)
      = (YQLRows.mk s ((i : Int) + 1) d, d.get ⟨i, hi⟩ :: slots, Outcome.ok ()) := by
  have h1 : ¬ ((i : Int) = (d.length : Int)) := by omega
  have h2 : ¬ ((i : Int) < 0) := by omega
  have h3 : d.get? i = some (d.get ⟨i, hi⟩) := List.get?_eq_get hi
  simp only [YQLRows.Next, h1, h2, if_false, Int.toNat_ofNat, h3, storeElement_eq]
  rfl

theorem Next_at_end (s : YQLStmt) (d : List JSON) (dest : List JSON) :
    YQLRows.Next (YQLRows.mk s (d.length : Int) d) dest
      = (YQLRows.mk s (d.length : Int) d, dest, Outcome.error "EOF") := by
  simp [YQLRows.Next]

theorem nextCalls_at_end (s : YQLStmt) (d : List JSON) (dests : List (List JSON)) :
    nextCalls (YQLRows.mk s (d.length : Int) d) dests = YQLRows.mk s (d.length : Int) d := by
  induction dests with
  | nil => rfl
  | cons dest more ih => simp only [nextCalls, Next_at_end, ih]

theorem nextCalls_from (s : YQLStmt) (d : List JSON) (dests : List (List JSON))
    (hdests : ∀ dest ∈ dests, dest ≠ []) (i : Nat) (hi : i ≤ d.length) :
    nextCalls (YQLRows.mk s (i : Int) d) dests
      = YQLRows.mk s ((min (i + dests.length) d.length : Nat) : Int) d := by
  induction dests generalizing i with
  | nil => simp [nextCalls, hi]
  | cons dest more ih =>
    have hmore : ∀ x ∈ more, x ≠ [] := fun x hx => hdests x (by simp [hx])
    have hdest : dest ≠ [] := hdests dest (by simp)
    rcases Nat.lt_or_ge i d.length with hlt | hge
    · cases dest with
      | nil => exact absurd rfl hdest
      | cons x slots =>
        simp only [nextCalls, Next_in_range s d i hlt]
        have := ih hmore (i + 1) hlt
        simp only [Nat.cast_add, Nat.cast_one] at this
        rw [this]
        simp only [List.length_cons]
        congr 2
        omega
    · have hieq : i = d.length := by omega
      subst hieq
      rw [nextCalls_at_end]
      congr 1
      simp

/-- Claim C12: on a fresh cursor over a Row Set `d`, after `i` calls of `Next`
with output slices of length at least 1 and `i` below the length of `d`, the
next call succeeds, writes the element `d[i]` itself into slot 0 of its output
slice, string-typed or not, leaves the other slots and moves the position to
`i + 1`; after as many calls as `d` has elements, the next call returns `io.EOF`
and changes nothing. -/
theorem C12_next_yields_rows_in_order (s : YQLStmt) (d : List JSON)
    (dests : List (List JSON)) (x : JSON) (slots : List JSON)
    (hdests : ∀ dest ∈ dests, dest ≠ []) :
    (∀ h : dests.length < d.length,
      YQLRows.Next (nextCalls (YQLRows.mk s 0 d) dests) (x :: slots)
        = (YQLRows.mk s ((dests.length : Int) + 1) d,
            d.get ⟨dests.length, h⟩ :: slots, Outcome.ok ()))
    ∧ (dests.length = d.length →
      YQLRows.Next (nextCalls (YQLRows.mk s 0 d) dests) (x :: slots)
        = (YQLRows.mk s (d.length : Int) d, x :: slots, Outcome.error "EOF")) := by
  have hpos := nextCalls_from s d dests hdests 0 (Nat.zero_le _)
  simp only [Nat.cast_zero, Nat.zero_add] at hpos
  constructor
  · intro h
    rw [hpos, Nat.min_eq_left (Nat.le_of_lt h)]
    exact Next_in_range s d dests.length h x slots
  · intro h
    rw [hpos, h, Nat.min_self]
    exact Next_at_end s d (x :: slots)

/-- Claim C12 on the Row Set of the two objects with `a` equal to 1 and to 2:
the first two calls yield them in order, the third returns `io.EOF`. -/
theorem C12_next_yields_rows_in_order_witness :
    YQLRows.Next (nextCalls (YQLRows.mk quoteStmt 0
        [JSON.object [(bytes "a", JSON.number 1)], JSON.object [(bytes "a", JSON.number 2)]])
        [[JSON.null]]) [JSON.null]
      = (YQLRows.mk quoteStmt 2
          [JSON.object [(bytes "a", JSON.number 1)], JSON.object [(bytes "a", JSON.number 2)]],
          [JSON.object [(bytes "a", JSON.number 2)]], Outcome.ok ()) :=
  (C12_next_yields_rows_in_order quoteStmt
    [JSON.object [(bytes "a", JSON.number 1)], JSON.object [(bytes "a", JSON.number 2)]]
    [[JSON.null]] JSON.null [] (by simp)).1 (by decide)

theorem Next_eof_iff (rc : YQLRows) (dest : List JSON) :
    (YQLRows.Next rc dest).2.2 = Outcome.error "EOF" ↔ rc.n = (rc.d.length : Int) := by
  constructor
  · intro h
    by_contra hne
    simp only [YQLRows.Next, hne, if_false] at h
    split at h
    · simp at h
    · split at h
      · simp at h
      · split at h <;> simp at h
  · intro h
    simp [YQLRows.Next, h]

/-- Claim C13: once `Next` has returned `io.EOF` on a cursor, that call and every
later call of `Next`, on any output slice, return `io.EOF` again and leave the
cursor (position and Row Set) and the output slice as they were. -/
theorem C13_exhausted_is_terminal (rc : YQLRows) (dest : List JSON)
    (heof : (YQLRows.Next rc dest).2.2 = Outcome.error "EOF")
    (dests : List (List JSON)) (later : List JSON) :
    YQLRows.Next rc dest = (rc, dest, Outcome.error "EOF")
    ∧ nextCalls (YQLRows.Next rc dest).1 dests = rc
    ∧ YQLRows.Next (nextCalls (YQLRows.Next rc dest).1 dests) later
        = (rc, later, Outcome.error "EOF") := by
  have hn : rc.n = (rc.d.length : Int) := (Next_eof_iff rc dest).mp heof
  obtain ⟨s, n, d⟩ := rc
  simp only at hn
  subst hn
  have h1 := Next_at_end s d dest
  refine ⟨h1, ?_, ?_⟩
  · rw [h1]; exact nextCalls_at_end s d dests
  · rw [h1]
    simp only [nextCalls_at_end]
    exact Next_at_end s d later

/-- Claim C13 on the exhausted cursor over a Row Set of one string: two more
calls later, `Next` still returns `io.EOF` and writes nothing. -/
theorem C13_exhausted_is_terminal_witness :
    YQLRows.Next (nextCalls (YQLRows.Next (YQLRows.mk quoteStmt 1 [JSON.string (bytes "v")])
        [JSON.null]).1 [[JSON.null], []]) [JSON.bool true]
      = (YQLRows.mk quoteStmt 1 [JSON.string (bytes "v")], [JSON.bool true],
          Outcome.error "EOF") :=
  (C13_exhausted_is_terminal (YQLRows.mk quoteStmt 1 [JSON.string (bytes "v")]) [JSON.null]
    rfl [[JSON.null], []] [JSON.bool true]).2.2

/-- Claim C18: a cursor reached from a fresh one by calls of `Next` with output
slices of length at least 1 has a position between 0 and the length of the Row
Set and the Row Set it started with; a further such call does not panic, keeps
the Row Set, and either returns `io.EOF` with the position unchanged or
succeeds with the position one higher; whenever the position is not the length,
so that `Next` reads `d[n]`, it is a valid index. -/
theorem C18_position_within_bounds (s : YQLStmt) (d : List JSON)
    (dests : List (List JSON)) (dest : List JSON)
    (hdests : ∀ x ∈ dests, x ≠ []) (hdest : dest ≠ []) :
    0 ≤ (nextCalls (YQLRows.mk s 0 d) dests).n
    ∧ (nextCalls (YQLRows.mk s 0 d) dests).n ≤ (d.length : Int)
    ∧ (nextCalls (YQLRows.mk s 0 d) dests).d = d
    ∧ ((nextCalls (YQLRows.mk s 0 d) dests).n ≠ (d.length : Int) →
        ∃ v, d.get? (nextCalls (YQLRows.mk s 0 d) dests).n.toNat = some v)
    ∧ (YQLRows.Next (nextCalls (YQLRows.mk s 0 d) dests) dest).2.2 ≠ Outcome.panic
    ∧ (YQLRows.Next (nextCalls (YQLRows.mk s 0 d) dests) dest).1.d = d
    ∧ (((YQLRows.Next (nextCalls (YQLRows.mk s 0 d) dests) dest).2.2 = Outcome.error "EOF"
          ∧ (YQLRows.Next (nextCalls (YQLRows.mk s 0 d) dests) dest).1.n
              = (nextCalls (YQLRows.mk s 0 d) dests).n)
        ∨ ((YQLRows.Next (nextCalls (YQLRows.mk s 0 d) dests) dest).2.2 = Outcome.ok ()
          ∧ (YQLRows.Next (nextCalls (YQLRows.mk s 0 d) dests) dest).1.n
              = (nextCalls (YQLRows.mk s 0 d) dests).n + 1)) := by
  have hpos := nextCalls_from s d dests hdests 0 (Nat.zero_le _)
  simp only [Nat.cast_zero, Nat.zero_add] at hpos
  rw [hpos]
  have hle : min dests.length d.length ≤ d.length := Nat.min_le_right _ _
  refine ⟨Int.ofNat_nonneg _, Int.ofNat_le.mpr hle, rfl, ?_, ?_⟩
  · intro hne
    have hne2 : ((min dests.length d.length : Nat) : Int) ≠ (d.length : Int) := hne
    have hlt : min dests.length d.length < d.length := by omega
    refine ⟨d.get ⟨_, hlt⟩, ?_⟩
    show d.get? ((min dests.length d.length : Nat) : Int).toNat = _
    rw [Int.toNat_ofNat]
    exact List.get?_eq_get hlt
  · cases dest with
    | nil => exact absurd rfl hdest
    | cons x slots =>
      rcases Nat.lt_or_ge (min dests.length d.length) d.length with h | h
      · rw [Next_in_range s d _ h]
        exact ⟨by simp, rfl, Or.inr ⟨rfl, rfl⟩⟩
      · have he : min dests.length d.length = d.length := by omega
        rw [he, Next_at_end]
        exact ⟨by simp, rfl, Or.inl ⟨rfl, rfl⟩⟩

/-- Claim C18 on the Row Set of one string after three calls of `Next`: the
position is 1, the length, and a fourth call returns `io.EOF`. -/
theorem C18_position_within_bounds_witness :
    (nextCalls (YQLRows.mk quoteStmt 0 [JSON.string (bytes "v")])
        [[JSON.null], [JSON.null], [JSON.null]]).n ≤ 1
    ∧ (YQLRows.Next (nextCalls (YQLRows.mk quoteStmt 0 [JSON.string (bytes "v")])
        [[JSON.null], [JSON.null], [JSON.null]]) [JSON.null]).2.2 ≠ Outcome.panic :=
  have h := C18_position_within_bounds quoteStmt [JSON.string (bytes "v")]
    [[JSON.null], [JSON.null], [JSON.null]] [JSON.null] (by simp) (by simp)
  ⟨h.2.1, h.2.2.2.2.1⟩

/-! ## The public request -/

/-- Claim C11: in the public branch (a key of at most one byte) the pairs `Query`
adds to `url.Values` are `q` with the bound query text and `format` with `json`,
followed by `env` with the qualifier when the qualifier is not empty, and
nothing else; each name is added once. -/
theorem C11_public_request_parameters {α : Type} (fmtQ : α → GoString) (s : YQLStmt)
    (args : List α) (hpublic : s.c.key.length ≤ 1) :
    (s.c.env ≠ [] →
      YQLStmt.request (YQLStmt.bind fmtQ s args).1
        = Request.public [(bytes "q", (YQLStmt.bind fmtQ s args).1.q),
            (bytes "format", bytes "json"), (bytes "env", s.c.env)])
    ∧ (s.c.env = [] →
      YQLStmt.request (YQLStmt.bind fmtQ s args).1
        = Request.public [(bytes "q", (YQLStmt.bind fmtQ s args).1.q),
            (bytes "format", bytes "json")]) := by
  have h2 : ¬ (1 < s.c.key.length) := by omega
  constructor
  · intro he
    simp [YQLStmt.request, YQLStmt.bind, h2, he]
  · intro he
    simp [YQLStmt.request, YQLStmt.bind, h2, he]

/-- Claim C11 on a connection without credentials whose qualifier is `env1`, for
the query text `q0`: the pairs are `q=q0`, `format=json`, `env=env1`. -/
theorem C11_public_request_parameters_witness :
    YQLStmt.request (YQLStmt.bind quoteASCII
        { c := { c := some HTTPClient.DefaultClient, key := [], secret := [],
                 env := bytes "env1" },
          q := bytes "q0" } noArgs).1
      = Request.public [(bytes "q", bytes "q0"), (bytes "format", bytes "json"),
          (bytes "env", bytes "env1")] :=
  (C11_public_request_parameters quoteASCII
    { c := { c := some HTTPClient.DefaultClient, key := [], secret := [], env := bytes "env1" },
      q := bytes "q0" } noArgs (by decide)).1 (by decide)

/-! ## Statement and connection -/

/-- Claim C14: `Prepare` never fails, and the statement it returns for a query
text `q` reports as `NumInput` the number of bytes of `q` equal to the question
mark, wherever they stand. -/
theorem C14_numInput_counts_placeholders (c : YQLConn) (q : GoString) :
    ∃ s, YQLConn.Prepare c q = Outcome.ok s ∧ s.q = q ∧ s.c = c
      ∧ YQLStmt.NumInput s = (q.filter (fun b => b == placeholder)).length := by
  refine ⟨{ c := c, q := q }, rfl, rfl, rfl, ?_⟩
  simp only [YQLStmt.NumInput, stringsCount, List.count, List.countP_eq_length_filter]

/-- Claim C15: on every connection, open or closed, `Begin` returns the error
"Begin not supported" and no transaction, and leaves the connection as it
was. -/
theorem C15_begin_always_fails (c : YQLConn) :
    YQLConn.Begin c = (c, Outcome.error "Begin not supported")
    ∧ YQLConn.Begin (YQLConn.Close c).1
        = ((YQLConn.Close c).1, Outcome.error "Begin not supported") :=
  ⟨rfl, rfl⟩

/-- Claim C16: on every statement and every argument list, `Exec` returns an
error and no result, and leaves the statement, its query text included, as it
was. -/
theorem C16_exec_always_fails {α : Type} (s : YQLStmt) (args : List α) :
    YQLStmt.Exec s args = (s, Outcome.error "Exec does not supported")
    ∧ (YQLStmt.Exec s args).1.q = s.q :=
  ⟨rfl, rfl⟩

/-! ## Binding, continued -/

theorem bindLoop_append {α : Type} (fmtQ : α → GoString) (q : GoString) (a b : List α) :
    bindLoop fmtQ q (a ++ b) = bindLoop fmtQ (bindLoop fmtQ q a) b := by
  induction a generalizing q with
  | nil => rfl
  | cons v rest ih =>
    show bindLoop fmtQ (stringsReplace1 q placeholder (fmtQ v)) (rest ++ b) = _
    rw [ih]
    rfl

/-- Claim C17: binding the arguments `a` and then the arguments `b` on the same
statement leaves the statement that one binding of `a ++ b` on the original
leaves, the second binding working on the text the first one left; binding
no argument leaves the statement unchanged. -/
theorem C17_bind_composes {α : Type} (fmtQ : α → GoString) (s : YQLStmt) (a b : List α) :
    (YQLStmt.bind fmtQ (YQLStmt.bind fmtQ s a).1 b).1 = (YQLStmt.bind fmtQ s (a ++ b)).1
    ∧ (YQLStmt.bind fmtQ (YQLStmt.bind fmtQ s a).1 b).1.q
        = bindLoop fmtQ (YQLStmt.bind fmtQ s a).1.q b
    ∧ (YQLStmt.bind fmtQ s ([] : List α)).1 = s := by
  refine ⟨?_, rfl, ?_⟩
  · simp only [YQLStmt.bind, bindLoop_append]
  · cases s
    rfl

theorem fillPlaceholders_of_not_mem (p : GoString) (rs : List GoString)
    (hp : placeholder ∉ p) : fillPlaceholders p rs = p := by
  induction p with
  | nil => cases rs <;> rfl
  | cons b rest ih =>
    have hb : b ≠ placeholder := fun h => hp (by simp [h])
    have hrest : placeholder ∉ rest := fun h => hp (by simp [h])
    cases rs with
    | nil => rfl
    | cons r more => simp [fillPlaceholders, hb, ih hrest]

theorem fillPlaceholders_take (q : GoString) (rs : List GoString) :
    fillPlaceholders q rs = fillPlaceholders q (rs.take (stringsCount q placeholder)) := by
  induction q generalizing rs with
  | nil => simp [fillPlaceholders]
  | cons b rest ih =>
    cases rs with
    | nil => simp
    | cons r more =>
      by_cases hb : b = placeholder
      · subst hb
        have hc : stringsCount (placeholder :: rest) placeholder
            = stringsCount rest placeholder + 1 := by
          simp [stringsCount]
        rw [hc, List.take_succ_cons]
        simp only [fillPlaceholders, if_true]
        rw [ih more]
      · have hb2 : ¬ (placeholder = b) := fun h => hb h.symm
        have hc : stringsCount (b :: rest) placeholder = stringsCount rest placeholder := by
          simp [stringsCount, List.count_cons, hb]
        rw [hc]
        cases hn : stringsCount rest placeholder with
        | zero =>
          have hrest : placeholder ∉ rest := not_mem_of_stringsCount_zero _ _ hn
          simp [fillPlaceholders, hb, fillPlaceholders_of_not_mem rest _ hrest]
        | succ m =>
          rw [List.take_succ_cons]
          simp only [fillPlaceholders, hb, if_false]
          have := ih (r :: more)
          rw [hn, List.take_succ_cons] at this
          rw [this]

/-- Claim C19: when no argument has a rendering that contains the placeholder
character, `bind` leaves the original text with its placeholders replaced from
the left by the renderings of the arguments in order, as far as both last: the
placeholders beyond the arguments and all other text stay, the arguments beyond
the placeholders are ignored, and the bound text has as many placeholders as
the original had more than there are arguments. -/
theorem C19_bind_partial {α : Type} (fmtQ : α → GoString) (s : YQLStmt) (args : List α)
    (hclean : ∀ a ∈ args, placeholder ∉ fmtQ a) :
    (YQLStmt.bind fmtQ s args).1.q = fillPlaceholders s.q (args.map fmtQ)
    ∧ (YQLStmt.bind fmtQ s args).1.q
        = (YQLStmt.bind fmtQ s (args.take (stringsCount s.q placeholder))).1.q
    ∧ stringsCount (YQLStmt.bind fmtQ s args).1.q placeholder
        = stringsCount s.q placeholder - args.length := by
  have hfill : bindLoop fmtQ s.q args = fillPlaceholders s.q (args.map fmtQ) :=
    bindLoop_eq_fillPlaceholders fmtQ s.q args hclean
  have hrs : ∀ r ∈ args.map fmtQ, placeholder ∉ r := by
    intro r hr
    rcases List.mem_map.mp hr with ⟨a, ha, rfl⟩
    exact hclean a ha
  have htake : ∀ a ∈ args.take (stringsCount s.q placeholder), placeholder ∉ fmtQ a :=
    fun a ha => hclean a (List.mem_of_mem_take ha)
  refine ⟨hfill, ?_, ?_⟩
  · show bindLoop fmtQ s.q args = bindLoop fmtQ s.q (args.take (stringsCount s.q placeholder))
    rw [hfill, bindLoop_eq_fillPlaceholders fmtQ s.q _ htake, List.map_take]
    exact fillPlaceholders_take s.q (args.map fmtQ)
  · show stringsCount (bindLoop fmtQ s.q args) placeholder = _
    rw [hfill, stringsCount_fillPlaceholders _ _ hrs, List.length_map]

/-- Claim C19 on the text `a=? b=?` with the one string argument `u`: the bound
text is `a="u" b=?`, with one placeholder left; and on the text `a=?` with the
arguments `u` and `x` the second argument is ignored. -/
theorem C19_bind_partial_witness :
    (YQLStmt.bind quoteASCII { c := publicConn, q := bytes "a=? b=?" } [bytes "u"]).1.q
        = bytes "a=" ++ quoteASCII (bytes "u") ++ bytes " b=?"
    ∧ stringsCount
        (YQLStmt.bind quoteASCII { c := publicConn, q := bytes "a=? b=?" } [bytes "u"]).1.q
        placeholder = 1
    ∧ (YQLStmt.bind quoteASCII { c := publicConn, q := bytes "a=?" } [bytes "u", bytes "x"]).1.q
        = bytes "a=" ++ quoteASCII (bytes "u") :=
  have h := C19_bind_partial quoteASCII { c := publicConn, q := bytes "a=? b=?" } [bytes "u"]
    (by decide)
  have h2 := C19_bind_partial quoteASCII { c := publicConn, q := bytes "a=?" }
    [bytes "u", bytes "x"] (by decide)
  ⟨h.1.trans (by decide), h.2.2.trans (by decide), h2.1.trans (by decide)⟩

/-! ## The envelope, continued -/

theorem scanResults_single_array (s : YQLStmt) (results : List (GoString × JSON))
    (k : GoString) (vv : List JSON) (hmem : (k, JSON.array vv) ∈ results)
    (hone : results.countP (fun e => e.2.isArray) = 1) (last : JSON) :
    scanResults s (results.map Prod.snd) last = Outcome.ok (YQLRows.mk s 0 vv) := by
  obtain ⟨before, after, rfl⟩ := List.append_of_mem hmem
  have hk : (JSON.array vv).isArray = true := rfl
  simp only [List.countP_append, List.countP_cons, hk, if_true] at hone
  have hzero : before.countP (fun e => e.2.isArray) = 0 := by omega
  have hb : ∀ v ∈ before.map Prod.snd, v.isArray = false := by
    intro v hv
    rcases List.mem_map.mp hv with ⟨e, he, rfl⟩
    have := List.countP_eq_zero.mp hzero e he
    simpa using this
  simp only [List.map_append, List.map_cons]
  exact scanResults_first_array s _ _ vv hb last

/-- Claim C20: for two well-shaped envelopes whose `results` mappings hold the
same entries in two scan orders, with exactly one array-typed entry among them,
`Query` returns in both cases a cursor at position 0 over that one array. -/
theorem C20_scan_order_irrelevant {α : Type} (fmtQ : α → GoString)
    (reply1 reply2 : Request → Reply) (s : YQLStmt) (args : List α)
    (top1 query1 results1 top2 query2 results2 : List (GoString × JSON))
    (k : GoString) (vv : List JSON)
    (hreply1 : reply1 (YQLStmt.request (YQLStmt.bind fmtQ s args).1)
      = Reply.decoded (JSON.object top1))
    (hquery1 : top1.lookup (bytes "query") = some (JSON.object query1))
    (hresults1 : query1.lookup (bytes "results") = some (JSON.object results1))
    (hreply2 : reply2 (YQLStmt.request (YQLStmt.bind fmtQ s args).1)
      = Reply.decoded (JSON.object top2))
    (hquery2 : top2.lookup (bytes "query") = some (JSON.object query2))
    (hresults2 : query2.lookup (bytes "results") = some (JSON.object results2))
    (hperm : results1.Perm results2)
    (hmem : (k, JSON.array vv) ∈ results1)
    (hone : results1.countP (fun e => e.2.isArray) = 1) :
    YQLStmt.Query fmtQ reply1 s args
      = ((YQLStmt.bind fmtQ s args).1,
          Outcome.ok (YQLRows.mk (YQLStmt.bind fmtQ s args).1 0 vv))
    ∧ YQLStmt.Query fmtQ reply2 s args = YQLStmt.Query fmtQ reply1 s args := by
  have hmem2 : (k, JSON.array vv) ∈ results2 := hperm.mem_iff.mp hmem
  have hone2 : results2.countP (fun e => e.2.isArray) = 1 := by
    rw [← hperm.countP_eq]; exact hone
  have e1 : YQLStmt.Query fmtQ reply1 s args
      = ((YQLStmt.bind fmtQ s args).1,
          Outcome.ok (YQLRows.mk (YQLStmt.bind fmtQ s args).1 0 vv)) := by
    rw [Query_decoded fmtQ reply1 s args _ hreply1]
    simp only [unwrapEnvelope, mapIndex_of_lookup _ _ _ hquery1,
      mapIndex_of_lookup _ _ _ hresults1]
    rw [scanResults_single_array _ results1 k vv hmem hone]
  have e2 : YQLStmt.Query fmtQ reply2 s args
      = ((YQLStmt.bind fmtQ s args).1,
          Outcome.ok (YQLRows.mk (YQLStmt.bind fmtQ s args).1 0 vv)) := by
    rw [Query_decoded fmtQ reply2 s args _ hreply2]
    simp only [unwrapEnvelope, mapIndex_of_lookup _ _ _ hquery2,
      mapIndex_of_lookup _ _ _ hresults2]
    rw [scanResults_single_array _ results2 k vv hmem2 hone2]
  exact ⟨e1, e2.trans e1.symm⟩

/-- Claim C20 on the `results` mapping with the entries `count`, a string, and
`quote`, an array of one string, scanned in either order: the Row Set is the
array both times. -/
theorem C20_scan_order_irrelevant_witness :
    YQLStmt.Query quoteASCII
        (fun _ => Reply.decoded (envelope [(bytes "quote", JSON.array [JSON.string (bytes "v")]),
          (bytes "count", JSON.string (bytes "1"))])) quoteStmt noArgs
      = YQLStmt.Query quoteASCII
        (fun _ => Reply.decoded (envelope [(bytes "count", JSON.string (bytes "1")),
          (bytes "quote", JSON.array [JSON.string (bytes "v")])])) quoteStmt noArgs :=
  (C20_scan_order_irrelevant quoteASCII
    (fun _ => Reply.decoded (envelope [(bytes "count", JSON.string (bytes "1")),
      (bytes "quote", JSON.array [JSON.string (bytes "v")])]))
    (fun _ => Reply.decoded (envelope [(bytes "quote", JSON.array [JSON.string (bytes "v")]),
      (bytes "count", JSON.string (bytes "1"))]))
    quoteStmt noArgs _ _ _ _ _ _ (bytes "quote") [JSON.string (bytes "v")]
    rfl rfl rfl rfl rfl rfl (List.Perm.swap _ _ _) (by simp) (by simp [JSON.isArray])).2

end Provider
